import Mathlib

/-!
Verification of the `superset-plugin-chart-antv-pivot` plugin.

The plugin's only computational content is `transformProps`
(src/plugin/transformProps.ts in the original layout): it reshapes flat
query-result rows into a pivot-ready structure (formatted temporal
columns, row/column total records, a grand total), plus a thin React
render adapter (`SupersetPluginTableSheet.jsx`) that mounts the external
`PivotSheet` widget.

This file gives a shallow embedding of that code:
  * JavaScript scalar values are the inductive `JSVal` (numbers are
    modelled as exact integers, which is faithful for the integer inputs
    the theorems use; floating point rounding is out of scope).
  * JavaScript objects (`Record<string, any>`) are association lists
    with JS assignment semantics (`assocSet`: update in place if the key
    is present, else append) and JS property access (`jsIndex`:
    `undefined` when absent).
  * `Array.prototype.join('-')` / `String.prototype.split('-')` are
    `joinParts` / `jsSplit` over `List Char` strings, matching the
    ECMAScript semantics including `[].join = ""` and `"".split('-') =
    [""]`, and `null`/`undefined` elements joining as the empty string.
  * The external time-formatting library (`getTimeFormatter`,
    `getTimeFormatterForGranularity`, `String`) is kept symbolic: the
    pipeline is parametric in an interpretation
    `F : Formatter → JSVal → JSVal` of formatter application, and
    `JSVal.vdate` marks the `new Date(x)` construction.
-/

set_option autoImplicit false

namespace AntvPivot

/-- A D3/superset formatter value, as selected by `transformProps`.
`granularityFmt g` is `getTimeFormatterForGranularity(g)`, `timeFmt f` is
`getTimeFormatter(f)`, and `strFmt` is the JavaScript `String` function. -/
inductive Formatter where
  | granularityFmt (g : String)
  | timeFmt (fmt : String)
  | strFmt
  deriving DecidableEq, Repr

/-- A JavaScript scalar value as it appears in a data record.
`vdate v` stands for `new Date(v)`; `vfmtRes` never occurs in inputs. -/
inductive JSVal where
  | vnull
  | vundefined
  | vnum (n : Int)
  | vstr (s : List Char)
  | vdate (v : JSVal)
  deriving DecidableEq, Repr

/-- Generic association-list lookup (first match), shared by the
string-valued objects, the formatter map and the numeric totals maps. -/
def assocFind? {K V : Type} [DecidableEq K] (k : K) : List (K × V) → Option V
  | [] => none
  | (k', v) :: rest => if k' = k then some v else assocFind? k rest

/-- Generic association-list write with JS object-assignment semantics:
overwrite in place when the key is present (keeping its position), else
append the new entry. -/
def assocSet {K V : Type} [DecidableEq K] (k : K) (v : V) : List (K × V) → List (K × V)
  | [] => [(k, v)]
  | (k', v') :: rest =>
    if k' = k then (k', v) :: rest else (k', v') :: assocSet k v rest

/-- A JavaScript object used as a data record: an association list from
property name to value, in property-insertion order. -/
abbrev Row := List (String × JSVal)

/-- JS property read `obj[k]`: the value at the key, or `undefined` when
the key is absent. -/
def jsIndex (r : Row) (k : String) : JSVal :=
  (assocFind? k r).getD .vundefined

/-- String conversion used by `Array.prototype.join`: `null` and
`undefined` become the empty string, numbers print in decimal, strings
pass through.  (`vdate` never reaches a join in the claims considered;
its printed form is environment-defined, embedded as an empty string.) -/
def joinToStr : JSVal → List Char
  | .vnull => []
  | .vundefined => []
  | .vnum n => (toString n).data
  | .vstr s => s
  | .vdate _ => []

/-- `parts.join(sep)` on JS strings (ECMAScript `Array.prototype.join`
with a one-character separator): `[] ↦ ""`, singleton passes through. -/
def joinParts (sep : Char) : List (List Char) → List Char
  | [] => []
  | [x] => x
  | x :: y :: t => x ++ sep :: joinParts sep (y :: t)

/-- `s.split(sep)` on JS strings (ECMAScript `String.prototype.split`
with a one-character separator): splits at every occurrence, and the
empty string yields `[""]`. -/
def jsSplit (sep : Char) : List Char → List (List Char)
  | [] => [[]]
  | c :: rest =>
    match jsSplit sep rest with
    | [] => [[]]
    | h :: t => if c = sep then [] :: h :: t else (c :: h) :: t

theorem jsSplit_ne_nil (sep : Char) (s : List Char) : jsSplit sep s ≠ [] := by
  cases s with
  | nil => simp [jsSplit]
  | cons c rest =>
    simp only [jsSplit]
    cases jsSplit sep rest with
    | nil => simp
    | cons h t =>
      by_cases hc : c = sep <;> simp [hc]

theorem jsSplit_append_sep (sep : Char) (a b : List Char) :
    jsSplit sep (a ++ sep :: b) = jsSplit sep a ++ jsSplit sep b := by
  induction a with
  | nil =>
    simp only [List.nil_append, jsSplit]
    cases hb : jsSplit sep b with
    | nil => exact absurd hb (jsSplit_ne_nil sep b)
    | cons h t => simp
  | cons c a ih =>
    simp only [List.cons_append, jsSplit, List.append_eq]
    rw [ih]
    cases ha : jsSplit sep a with
    | nil => exact absurd ha (jsSplit_ne_nil sep a)
    | cons h t =>
      by_cases hc : c = sep <;> simp [hc]

/-- A string containing no occurrence of the separator splits to itself. -/
theorem jsSplit_of_not_mem (sep : Char) (s : List Char) (h : sep ∉ s) :
    jsSplit sep s = [s] := by
  induction s with
  | nil => rfl
  | cons c rest ih =>
    simp only [List.mem_cons, not_or] at h
    simp only [jsSplit, ih h.2]
    simp [Ne.symm h.1]

/-- Split-after-join round-trips on nonempty lists of separator-free
strings. -/
theorem jsSplit_joinParts (sep : Char) (L : List (List Char)) (hne : L ≠ [])
    (hsep : ∀ x ∈ L, sep ∉ x) :
    jsSplit sep (joinParts sep L) = L := by
  induction L with
  | nil => exact absurd rfl hne
  | cons x t ih =>
    cases t with
    | nil =>
      simp only [joinParts]
      exact jsSplit_of_not_mem sep x (hsep x (List.mem_cons_self x []))
    | cons y t' =>
      simp only [joinParts]
      rw [jsSplit_append_sep, jsSplit_of_not_mem sep x (hsep x (by simp))]
      rw [ih (by simp) (fun z hz => hsep z (List.mem_cons_of_mem x hz))]
      rfl

/-- The number of fragments produced by splitting a join of `L` is at
least the length of `L` (each joined element contributes at least one
fragment; elements containing the separator contribute more). -/
theorem jsSplit_joinParts_length (sep : Char) (L : List (List Char)) (hne : L ≠ []) :
    L.length ≤ (jsSplit sep (joinParts sep L)).length := by
  induction L with
  | nil => exact absurd rfl hne
  | cons x t ih =>
    cases t with
    | nil =>
      simp only [joinParts, List.length_cons, List.length_nil]
      have := jsSplit_ne_nil sep x
      cases h : jsSplit sep x with
      | nil => exact absurd h this
      | cons a b => simp
    | cons y t' =>
      simp only [joinParts, List.length_cons]
      rw [jsSplit_append_sep]
      have ht := ih (by simp)
      simp only [List.length_cons] at ht
      cases h : jsSplit sep x with
      | nil => exact absurd h (jsSplit_ne_nil sep x)
      | cons a b =>
        simp only [List.cons_append, List.length_append, List.length_cons]
        omega

/-- `GenericDataType` from `@superset-ui/core`
(NUMERIC / STRING / TEMPORAL / BOOLEAN). -/
inductive GenericDataType where
  | numeric
  | string
  | temporal
  | boolean
  deriving DecidableEq, Repr

/-- `smartDateFormatter.id` from `@superset-ui/core`. -/
def smartDateFormatterId : String := "smart_date"

/-- `TimeFormats.DATABASE_DATETIME` from `@superset-ui/core`. -/
def DATABASE_DATETIME : String := "%Y-%m-%d %H:%M:%S"

/-- `isNumeric(key, data)` from `transformProps`: every record's value at
`key` is `null`, `undefined` (including an absent property), or a number. -/
def isNumeric (key : String) (data : List Row) : Bool :=
  data.all fun record =>
    match jsIndex record key with
    | .vnull => true
    | .vundefined => true
    | .vnum _ => true
    | _ => false

/-- The per-temporal-column branch of the `dateFormatters` reduce in
`transformProps`.  `dateFormat = none` models an undefined form value;
`some ""` is likewise falsy in the `else if (dateFormat)` test. -/
def resolveFormatter (dateFormat : Option String) (granularity : Option String)
    (data : List Row) (temporalColname : String) : Option Formatter :=
  if dateFormat = some smartDateFormatterId then
    match granularity with
    | some g => some (.granularityFmt g)
    | none =>
      if isNumeric temporalColname data then some (.timeFmt DATABASE_DATETIME)
      else some .strFmt
  else
    match dateFormat with
    | some f => if f = "" then none else some (.timeFmt f)
    | none => none

/-- One step of an option-guarded record fold (the body of the
`dateFormatters` reduce): bind the key when a value resolved for it,
else leave the record unchanged. -/
def oStep {K V : Type} [DecidableEq K] (w : K → Option V)
    (acc : List (K × V)) (k : K) : List (K × V) :=
  match w k with
  | some v => assocSet k v acc
  | none => acc

/-- The `dateFormatters` record of `transformProps`: the temporal columns
(`colnames` whose parallel `coltypes` entry is TEMPORAL) folded into a
record, each bound to its resolved formatter when one resolves (`if
(formatter) acc[temporalColname] = formatter`). -/
def dateFormatters (colnames : List String) (coltypes : List GenericDataType)
    (dateFormat granularity : Option String) (data : List Row) :
    List (String × Formatter) :=
  (((colnames.zip coltypes).filter fun p => p.2 = GenericDataType.temporal).map
      Prod.fst).foldl
    (oStep (resolveFormatter dateFormat granularity data)) []

/-- First loop of the `transformedData` map body: each temporal column
(a key of `dateFormatters`) is written as its formatter applied to
`new Date(item[col])`.  Every key of `dateFormatters` is bound to a
formatter function, so the code's fallback branch for a missing
formatter is dead and folding over the entries directly is equivalent. -/
def applyFormattersPass (F : Formatter → JSVal → JSVal)
    (fmts : List (String × Formatter)) (item : Row) : Row :=
  fmts.foldl
    (fun acc cf => assocSet cf.1 (F cf.2 (JSVal.vdate (jsIndex item cf.1))) acc) []

/-- Second loop of the `transformedData` map body: copy every column of
the item that is not a temporal column, unchanged. -/
def copyOthersPass (temporalColumns : List String) (item : Row) (r : Row) : Row :=
  (item.map Prod.fst).foldl
    (fun acc colname =>
      if temporalColumns.contains colname then acc
      else assocSet colname (jsIndex item colname) acc)
    r

/-- One `transformedData` row: temporal columns first, then all other
columns copied unchanged. -/
def transformItem (F : Formatter → JSVal → JSVal)
    (fmts : List (String × Formatter)) (item : Row) : Row :=
  copyOthersPass (fmts.map Prod.fst) item (applyFormattersPass F fmts item)

/-- `item[metric] || 0` in the accumulation loops: a number contributes
its value (0 is falsy and contributes 0), `null`/`undefined`/absent
contribute 0.  Metric columns of a query result hold numbers or nulls;
other scalars are outside the model. -/
def metricContrib (item : Row) (metric : String) : Int :=
  match jsIndex item metric with
  | .vnum n => n
  | _ => 0

/-- Combined contribution of all configured metrics of one row: the code
adds every metric into the single per-group accumulator. -/
def metricsSum (metrics : List String) (item : Row) : Int :=
  metrics.foldl (fun s m => s + metricContrib item m) 0

/-- `groupbyRows.map(row => item[row]).join('-')` (resp. the column
variant): the group key of a row. -/
def groupKey (dims : List String) (item : Row) : List Char :=
  joinParts '-' (dims.map fun d => joinToStr (jsIndex item d))

/-- `rowTotalsMap` / `colTotalsMap`: a string-keyed record of numbers in
key-insertion order. -/
abbrev TotalsMap := List (List Char × Int)

/-- One iteration of the totals-accumulation `forEach`:
`if (!map[key]) map[key] = 0;` then `map[key] += item[m] || 0` for every
metric.  The falsy re-initialisation only ever writes 0 over an absent or
zero entry, so it amounts to starting from the current value or 0. -/
def bumpTotals (dims metrics : List String) (acc : TotalsMap) (item : Row) :
    TotalsMap :=
  let key := groupKey dims item
  let cur := (assocFind? key acc).getD 0
  assocSet key (metrics.foldl (fun s m => s + metricContrib item m) cur) acc

/-- The full totals-accumulation pass over `transformedData`. -/
def totalsMap (dims metrics : List String) (data : List Row) : TotalsMap :=
  data.foldl (bumpTotals dims metrics) []

/-- `rowKey.split('-')[index]`: a fragment of the split key, or
`undefined` past the end of the fragment list. -/
def dimPart (key : List Char) (index : Nat) : JSVal :=
  match (jsSplit '-' key).get? index with
  | some part => .vstr part
  | none => .vundefined

/-- `map[key]` read back as a JS value while building a total record. -/
def totalValue (m : TotalsMap) (key : List Char) : JSVal :=
  match assocFind? key m with
  | some n => .vnum n
  | none => .vundefined

/-- One `rowTotalsData`/`colTotalsData` record for a group key: each
dimension at position `index` receives `key.split('-')[index]`, then
every metric receives the group's accumulated total `map[key]`. -/
def buildTotalItem (dims metrics : List String) (m : TotalsMap)
    (key : List Char) : Row :=
  let withDims :=
    dims.enum.foldl (fun acc p => assocSet p.2 (dimPart key p.1) acc) []
  metrics.foldl (fun acc metric => assocSet metric (totalValue m key) acc) withDims

/-- `Object.keys(map).map(key => ...)`: one total record per distinct
group key, in key-insertion order. -/
def totalsData (dims metrics : List String) (m : TotalsMap) : List Row :=
  (m.map Prod.fst).map (buildTotalItem dims metrics m)

/-- One step of the grand-total reduce:
`metrics.forEach(m => sum[m] = (sum[m] || 0) + item[m])`.  `item` is a
total record, whose metric fields are always numbers. -/
def addTotalsRecord (metrics : List String) (sum item : Row) : Row :=
  metrics.foldl
    (fun acc metric =>
      assocSet metric
        (.vnum (metricContrib acc metric + metricContrib item metric)) acc)
    sum

/-- `sumOfRowTotals`: the grand-total record, reduced over the row-total
records starting from the empty object. -/
def sumOfRowTotals (metrics : List String) (rowTotalsData : List Row) : Row :=
  rowTotalsData.foldl (addTotalsRecord metrics) []

/-- A configured metric: either a plain saved-metric name or an ad-hoc
metric carrying a label.  `transformProps` maps each to its label.  (The
scalar, non-array `metrics` form is the singleton list.) -/
inductive MetricSpec where
  | inline (name : String)
  | adhoc (label : String)
  deriving DecidableEq, Repr

/-- `typeof metric === 'string' ? metric : metric.label`. -/
def labelOf : MetricSpec → String
  | .inline n => n
  | .adhoc l => l

/-- The inputs `transformProps` destructures from `chartProps`
(`formData`, `rawFormData` granularity, and the first query result). -/
structure ChartInput where
  groupbyRows : List String
  groupbyColumns : List String
  metrics : List MetricSpec
  dateFormat : Option String
  transposePivot : Bool
  granularity : Option String
  colnames : List String
  coltypes : List GenericDataType
  data : List Row

/-- The data-bearing pieces of the props object `transformProps`
returns (width/height and the pass-through display flags are omitted:
they carry no computation). -/
structure TransformResult where
  fieldsRows : List String
  fieldsColumns : List String
  data : List Row
  rowTotalsData : List Row
  colTotalsData : List Row
  sumOfRowTotals : Row
  totalData : List Row

/-- The `transformProps` pipeline, parametric in the external
formatter-application semantics `F`. -/
def transformProps (F : Formatter → JSVal → JSVal) (inp : ChartInput) :
    TransformResult :=
  let formattedMetrics := inp.metrics.map labelOf
  let rows := if inp.transposePivot then inp.groupbyColumns else inp.groupbyRows
  let columns := if inp.transposePivot then inp.groupbyRows else inp.groupbyColumns
  let fmts :=
    dateFormatters inp.colnames inp.coltypes inp.dateFormat inp.granularity inp.data
  let transformedData := inp.data.map (transformItem F fmts)
  let rowTotalsMap := totalsMap inp.groupbyRows formattedMetrics transformedData
  let rowTotalsData' := totalsData inp.groupbyRows formattedMetrics rowTotalsMap
  let colTotalsMap := totalsMap inp.groupbyColumns formattedMetrics transformedData
  let colTotalsData' := totalsData inp.groupbyColumns formattedMetrics colTotalsMap
  let grand := sumOfRowTotals formattedMetrics rowTotalsData'
  { fieldsRows := rows
    fieldsColumns := columns
    data := transformedData
    rowTotalsData := rowTotalsData'
    colTotalsData := colTotalsData'
    sumOfRowTotals := grand
    totalData := rowTotalsData' ++ colTotalsData' ++ [grand] }

/-! ### Render adapter (`SupersetPluginTableSheet.jsx`)

The component's `useEffect` body clears the container div and then
constructs and renders the external `PivotSheet` inside a
`try { ... } catch (error) { console.error(...) }` block.  The widget is
external; its construction-and-render step is modelled as a fallible
step supplied as a parameter (`Except JsError DomChild`). -/

/-- A raised JavaScript error. -/
abbrev JsError := String

/-- A DOM child of the plugin's container `div`: either the canvas the
`PivotSheet` widget renders, some stale content from a previous render,
or an error display (which this component never constructs). -/
inductive DomChild where
  | widgetCanvas
  | staleContent (id : Nat)
  | errorDisplay (msg : String)
  deriving DecidableEq, Repr

/-- The observable outcome of one run of the render effect. -/
structure EffectOutcome where
  /-- The container's children after the effect. -/
  container : List DomChild
  /-- Arguments passed to `console.error`, one entry per logged error. -/
  logged : List JsError
  /-- An exception escaping the effect, if any. -/
  propagated : Option JsError
  deriving DecidableEq, Repr

/-- The `try` body of `fetchDataAndRenderSheet`: remove every child of
the container, then construct `new PivotSheet(...)` and call
`s2.render()` (the external step `widget`, which may throw; on success
it renders its canvas into the cleared container).  A throw aborts the
body with the container already cleared. -/
def renderSheetBody (widget : Except JsError Unit)
    (container : List DomChild) : Except JsError (List DomChild) :=
  let _ := container
  match widget with
  | .ok _ => .ok [DomChild.widgetCanvas]
  | .error e => .error e

/-- `fetchDataAndRenderSheet` with its `try/catch`: a body error is
caught, logged once with the fixed message prefix, and swallowed; the
container is left as the failed body left it (cleared, blank). -/
def fetchDataAndRenderSheet (widget : Except JsError Unit)
    (container : List DomChild) : EffectOutcome :=
  match renderSheetBody widget container with
  | .ok children => { container := children, logged := [], propagated := none }
  | .error e =>
    { container := []
      logged := ["Error fetching data or rendering TableSheet: " ++ e]
      propagated := none }

/-! ### Association-list lemmas -/

theorem assocFind?_assocSet_self {K V : Type} [DecidableEq K] (k : K) (v : V)
    (m : List (K × V)) : assocFind? k (assocSet k v m) = some v := by
  induction m with
  | nil => simp [assocSet, assocFind?]
  | cons p rest ih =>
    obtain ⟨k', v'⟩ := p
    by_cases h : k' = k <;> simp [assocSet, assocFind?, h, ih]

theorem assocFind?_assocSet_ne {K V : Type} [DecidableEq K] (k k' : K) (v : V)
    (m : List (K × V)) (h : k' ≠ k) :
    assocFind? k' (assocSet k v m) = assocFind? k' m := by
  induction m with
  | nil =>
    simp only [assocSet, assocFind?]
    rw [if_neg (Ne.symm h)]
  | cons p rest ih =>
    obtain ⟨k'', v''⟩ := p
    by_cases hk : k'' = k
    · subst hk
      simp only [assocSet, if_pos rfl, assocFind?]
      rw [if_neg (Ne.symm h), if_neg (Ne.symm h)]
    · simp only [assocSet, if_neg hk, assocFind?]
      by_cases hk' : k'' = k' <;> simp [hk', ih]

theorem assocSet_keys {K V : Type} [DecidableEq K] (k : K) (v : V)
    (m : List (K × V)) :
    (assocSet k v m).map Prod.fst =
      if k ∈ m.map Prod.fst then m.map Prod.fst else m.map Prod.fst ++ [k] := by
  induction m with
  | nil => simp [assocSet]
  | cons p rest ih =>
    obtain ⟨k', v'⟩ := p
    by_cases h : k' = k
    · subst h
      simp [assocSet]
    · simp only [assocSet, if_neg h, List.map_cons, ih]
      by_cases hm : k ∈ rest.map Prod.fst
      · simp [hm, h]
      · simp only [hm, if_false]
        rw [if_neg]
        · simp
        · simp only [List.mem_cons]
          push_neg
          exact ⟨fun hh => h hh.symm, hm⟩

theorem assocFind?_isSome_iff {K V : Type} [DecidableEq K] (k : K)
    (m : List (K × V)) : (assocFind? k m).isSome ↔ k ∈ m.map Prod.fst := by
  induction m with
  | nil => simp [assocFind?]
  | cons p rest ih =>
    obtain ⟨k', v'⟩ := p
    by_cases h : k' = k
    · subst h
      simp [assocFind?]
    · simp only [assocFind?, if_neg h, List.map_cons, List.mem_cons, ih]
      constructor
      · intro hm
        exact Or.inr hm
      · rintro (heq | hm)
        · exact absurd heq.symm h
        · exact hm

theorem assocFind?_eq_none_of_not_mem {K V : Type} [DecidableEq K] (k : K)
    (m : List (K × V)) (h : k ∉ m.map Prod.fst) : assocFind? k m = none := by
  cases hf : assocFind? k m with
  | none => rfl
  | some v =>
    exact absurd ((assocFind?_isSome_iff k m).mp (by simp [hf])) h

theorem assocSet_keys_nodup {K V : Type} [DecidableEq K] (k : K) (v : V)
    (m : List (K × V)) (h : (m.map Prod.fst).Nodup) :
    ((assocSet k v m).map Prod.fst).Nodup := by
  rw [assocSet_keys]
  by_cases hm : k ∈ m.map Prod.fst
  · simpa [hm]
  · rw [if_neg hm, List.nodup_append]
    refine ⟨h, List.nodup_singleton k, ?_⟩
    intro a ha hb
    simp only [List.mem_singleton] at hb
    subst hb
    exact hm ha

/-- Writes at keys other than `c` do not change the entry at `c`
(fold with a value that may depend on the accumulator). -/
theorem assocFind?_foldl_preserve_dep {K V α : Type} [DecidableEq K]
    (κ : α → K) (w : List (K × V) → α → V) (l : List α) (r : List (K × V))
    (c : K) (h : ∀ x ∈ l, κ x ≠ c) :
    assocFind? c (l.foldl (fun acc x => assocSet (κ x) (w acc x) acc) r) =
      assocFind? c r := by
  induction l generalizing r with
  | nil => rfl
  | cons x t ih =>
    simp only [List.foldl_cons]
    rw [ih _ (fun y hy => h y (List.mem_cons_of_mem x hy))]
    exact assocFind?_assocSet_ne _ _ _ _ (Ne.symm (h x (List.mem_cons_self x t)))

/-- Writes at keys other than `c` do not change the entry at `c`
(fold with a per-element value). -/
theorem assocFind?_foldl_preserve {K V α : Type} [DecidableEq K]
    (κ : α → K) (w : α → V) (l : List α) (r : List (K × V))
    (c : K) (h : ∀ x ∈ l, κ x ≠ c) :
    assocFind? c (l.foldl (fun acc y => assocSet (κ y) (w y) acc) r) =
      assocFind? c r := by
  induction l generalizing r with
  | nil => rfl
  | cons x t ih =>
    simp only [List.foldl_cons]
    rw [ih _ (fun y hy => h y (List.mem_cons_of_mem x hy))]
    exact assocFind?_assocSet_ne _ _ _ _ (Ne.symm (h x (List.mem_cons_self x t)))

/-- After folding per-element writes over a key-nodup list, the entry at
the key of a list element holds that element's value. -/
theorem assocFind?_foldl_write {K V α : Type} [DecidableEq K]
    (κ : α → K) (w : α → V) (l : List α) (r : List (K × V)) (c : K) (x : α)
    (hnd : (l.map κ).Nodup) (hx : x ∈ l) (hκ : κ x = c) :
    assocFind? c (l.foldl (fun acc y => assocSet (κ y) (w y) acc) r) =
      some (w x) := by
  induction l generalizing r with
  | nil => cases hx
  | cons y t ih =>
    simp only [List.map_cons, List.nodup_cons] at hnd
    simp only [List.foldl_cons]
    rcases List.mem_cons.mp hx with rfl | hxt
    · have hc : ∀ z ∈ t, κ z ≠ c := by
        intro z hz hzc
        apply hnd.1
        rw [hκ, ← hzc]
        exact List.mem_map_of_mem κ hz
      rw [assocFind?_foldl_preserve κ w t _ c hc, ← hκ]
      exact assocFind?_assocSet_self (κ x) (w x) r
    · exact ih _ hnd.2 hxt

/-- If some element of the fold list has key `c` and every element with
key `c` writes a value satisfying `P`, the final entry at `c` satisfies
`P` (duplicate keys allowed: the last write wins). -/
theorem assocFind?_foldl_pred {K V α : Type} [DecidableEq K]
    (κ : α → K) (w : α → V) (P : V → Prop) (l : List α) (r : List (K × V))
    (c : K) (hc : ∃ x ∈ l, κ x = c) (hP : ∀ x ∈ l, κ x = c → P (w x)) :
    ∃ v, assocFind? c (l.foldl (fun acc y => assocSet (κ y) (w y) acc) r) =
      some v ∧ P v := by
  induction l generalizing r with
  | nil => obtain ⟨x, hx, -⟩ := hc; cases hx
  | cons y t ih =>
    simp only [List.foldl_cons]
    by_cases hct : ∃ x ∈ t, κ x = c
    · exact ih _ hct (fun x hx => hP x (List.mem_cons_of_mem y hx))
    · obtain ⟨x, hx, hxc⟩ := hc
      rcases List.mem_cons.mp hx with rfl | hxt
      · push_neg at hct
        rw [assocFind?_foldl_preserve κ w t _ c hct, ← hxc]
        exact ⟨w x, assocFind?_assocSet_self (κ x) (w x) r,
          hP x (List.mem_cons_self x t) hxc⟩
      · exact absurd ⟨x, hxt, hxc⟩ hct

/-- Folding writes of one constant value over a list of keys. -/
theorem assocFind?_foldl_const {K V : Type} [DecidableEq K]
    (l : List K) (v : V) (r : List (K × V)) (c : K) :
    assocFind? c (l.foldl (fun acc k => assocSet k v acc) r) =
      if c ∈ l then some v else assocFind? c r := by
  induction l generalizing r with
  | nil => simp
  | cons k t ih =>
    simp only [List.foldl_cons, ih]
    by_cases hct : c ∈ t
    · simp [hct]
    · by_cases hck : c = k
      · subst hck
        simp [hct, assocFind?_assocSet_self]
      · rw [assocFind?_assocSet_ne k c v r hck]
        simp [hct, hck]

/-- Folding option-guarded writes (`oStep`) over a key list: entries at
keys outside the list are unchanged. -/
theorem assocFind?_ofoldl_not_mem {K V : Type} [DecidableEq K]
    (w : K → Option V) (l : List K) (r : List (K × V)) (c : K) (hc : c ∉ l) :
    assocFind? c (l.foldl (oStep w) r) = assocFind? c r := by
  induction l generalizing r with
  | nil => rfl
  | cons k t ih =>
    simp only [List.mem_cons, not_or] at hc
    simp only [List.foldl_cons]
    rw [ih _ hc.2]
    simp only [oStep]
    cases w k with
    | none => rfl
    | some v => exact assocFind?_assocSet_ne _ _ _ _ hc.1

/-- Folding option-guarded writes over a nodup key list: the entry at a
listed key is its own write when one occurs, else whatever was there. -/
theorem assocFind?_ofoldl_mem {K V : Type} [DecidableEq K]
    (w : K → Option V) (l : List K) (r : List (K × V)) (c : K)
    (hnd : l.Nodup) (hc : c ∈ l) :
    assocFind? c (l.foldl (oStep w) r) =
      match w c with
      | some v => some v
      | none => assocFind? c r := by
  induction l generalizing r with
  | nil => cases hc
  | cons k t ih =>
    simp only [List.nodup_cons] at hnd
    simp only [List.foldl_cons]
    rcases List.mem_cons.mp hc with rfl | hct
    · rw [assocFind?_ofoldl_not_mem w t _ c hnd.1]
      simp only [oStep]
      cases w c with
      | none => rfl
      | some v => exact assocFind?_assocSet_self c v r
    · have hkc : k ≠ c := fun he => hnd.1 (by rw [he]; exact hct)
      have hstep : assocFind? c (oStep w r k) = assocFind? c r := by
        simp only [oStep]
        cases w k with
        | none => rfl
        | some v => exact assocFind?_assocSet_ne k c v r (Ne.symm hkc)
      rw [ih _ hnd.2 hct]
      cases w c with
      | none => exact hstep
      | some v => rfl

/-! ### Totals-accumulation lemmas -/

/-- The sum, over the member rows of group `k`, of the combined
contribution of all configured metrics: what the code's single
per-group accumulator computes for `k`. -/
def groupMetricsSum (dims metrics : List String) (data : List Row)
    (k : List Char) : Int :=
  ((data.filter fun item => groupKey dims item = k).map (metricsSum metrics)).sum

theorem foldl_add_shift (f : String → Int) (l : List String) (c : Int) :
    l.foldl (fun s m => s + f m) c = c + l.foldl (fun s m => s + f m) 0 := by
  induction l generalizing c with
  | nil => simp
  | cons m t ih =>
    simp only [List.foldl_cons]
    rw [ih (c + f m), ih (0 + f m)]
    omega

theorem metricsSum_cons (m : String) (l : List String) (item : Row) :
    metricsSum (m :: l) item = metricContrib item m + metricsSum l item := by
  simp only [metricsSum, List.foldl_cons]
  rw [foldl_add_shift]
  omega

theorem groupMetricsSum_nil (dims metrics : List String) (k : List Char) :
    groupMetricsSum dims metrics [] k = 0 := rfl

theorem groupMetricsSum_cons (dims metrics : List String) (item : Row)
    (t : List Row) (k : List Char) :
    groupMetricsSum dims metrics (item :: t) k =
      (if groupKey dims item = k then metricsSum metrics item else 0) +
        groupMetricsSum dims metrics t k := by
  simp only [groupMetricsSum, List.filter_cons]
  by_cases h : groupKey dims item = k <;> simp [h]

theorem bumpTotals_eq (dims metrics : List String) (acc : TotalsMap) (item : Row) :
    bumpTotals dims metrics acc item =
      assocSet (groupKey dims item)
        ((assocFind? (groupKey dims item) acc).getD 0 + metricsSum metrics item)
        acc := by
  simp only [bumpTotals]
  rw [foldl_add_shift]
  rfl

/-- Value invariant of the totals accumulation: the entry at `k` (read
back as 0 when absent) grows by exactly the combined metric sum of the
rows of group `k`. -/
theorem totalsMap_find_getD (dims metrics : List String) (data : List Row)
    (acc : TotalsMap) (k : List Char) :
    (assocFind? k (data.foldl (bumpTotals dims metrics) acc)).getD 0 =
      (assocFind? k acc).getD 0 + groupMetricsSum dims metrics data k := by
  induction data generalizing acc with
  | nil => simp [groupMetricsSum_nil]
  | cons item t ih =>
    simp only [List.foldl_cons]
    rw [ih, groupMetricsSum_cons, bumpTotals_eq]
    by_cases h : groupKey dims item = k
    · rw [h, assocFind?_assocSet_self, if_pos rfl]
      simp only [Option.getD_some]
      omega
    · rw [assocFind?_assocSet_ne _ _ _ _ (Ne.symm h), if_neg h]
      omega

theorem mem_keys_assocSet {K V : Type} [DecidableEq K] (k k' : K) (v : V)
    (m : List (K × V)) :
    k' ∈ (assocSet k v m).map Prod.fst ↔ k' ∈ m.map Prod.fst ∨ k' = k := by
  rw [assocSet_keys]
  by_cases h : k ∈ m.map Prod.fst
  · simp only [h, if_true]
    constructor
    · exact Or.inl
    · rintro (hm | rfl)
      · exact hm
      · exact h
  · simp [h]

/-- Key-set invariant of the totals accumulation: `k` is a key exactly
when it was already one or some row of the data joins to it. -/
theorem totalsMap_mem_keys (dims metrics : List String) (data : List Row)
    (acc : TotalsMap) (k : List Char) :
    k ∈ (data.foldl (bumpTotals dims metrics) acc).map Prod.fst ↔
      k ∈ acc.map Prod.fst ∨ ∃ item ∈ data, groupKey dims item = k := by
  induction data generalizing acc with
  | nil => simp
  | cons item t ih =>
    simp only [List.foldl_cons]
    rw [ih, bumpTotals_eq, mem_keys_assocSet]
    constructor
    · rintro ((hm | rfl) | ⟨x, hx, hxk⟩)
      · exact Or.inl hm
      · exact Or.inr ⟨item, List.mem_cons_self item t, rfl⟩
      · exact Or.inr ⟨x, List.mem_cons_of_mem item hx, hxk⟩
    · rintro (hm | ⟨x, hx, hxk⟩)
      · exact Or.inl (Or.inl hm)
      · rcases List.mem_cons.mp hx with rfl | hxt
        · exact Or.inl (Or.inr hxk.symm)
        · exact Or.inr ⟨x, hxt, hxk⟩

/-- The totals map has no duplicate keys. -/
theorem totalsMap_keys_nodup (dims metrics : List String) (data : List Row)
    (acc : TotalsMap) (h : (acc.map Prod.fst).Nodup) :
    ((data.foldl (bumpTotals dims metrics) acc).map Prod.fst).Nodup := by
  induction data generalizing acc with
  | nil => exact h
  | cons item t ih =>
    simp only [List.foldl_cons]
    exact ih _ (by rw [bumpTotals_eq]; exact assocSet_keys_nodup _ _ _ h)

/-- Sum of all entry values of a totals map. -/
def valuesSum (m : TotalsMap) : Int := (m.map Prod.snd).sum

theorem valuesSum_assocSet (k : List Char) (d : Int) (m : TotalsMap) :
    valuesSum (assocSet k ((assocFind? k m).getD 0 + d) m) = valuesSum m + d := by
  induction m with
  | nil => simp [assocSet, assocFind?, valuesSum]
  | cons p rest ih =>
    obtain ⟨k', v'⟩ := p
    by_cases h : k' = k
    · subst h
      simp only [assocFind?, assocSet, if_pos rfl, Option.getD_some, valuesSum,
        List.map_cons, List.sum_cons, if_true]
      omega
    · simp only [assocFind?, if_neg h, assocSet, valuesSum, List.map_cons,
        List.sum_cons]
      have := ih
      simp only [valuesSum] at this
      rw [this]
      omega

/-- The total of all accumulated group sums is the total combined metric
sum over all rows. -/
theorem valuesSum_totalsMap (dims metrics : List String) (data : List Row)
    (acc : TotalsMap) :
    valuesSum (data.foldl (bumpTotals dims metrics) acc) =
      valuesSum acc + (data.map (metricsSum metrics)).sum := by
  induction data generalizing acc with
  | nil => simp
  | cons item t ih =>
    simp only [List.foldl_cons, List.map_cons, List.sum_cons]
    rw [ih, bumpTotals_eq, valuesSum_assocSet]
    omega

/-! ### Total-record field lemmas -/

theorem buildTotalItem_metric (dims metrics : List String) (tm : TotalsMap)
    (key : List Char) (m : String) (hm : m ∈ metrics) :
    jsIndex (buildTotalItem dims metrics tm key) m = totalValue tm key := by
  simp only [buildTotalItem, jsIndex]
  rw [assocFind?_foldl_const metrics (totalValue tm key) _ m, if_pos hm]
  rfl

theorem buildTotalItem_not_metric (dims metrics : List String) (tm : TotalsMap)
    (key : List Char) (c : String) (hc : c ∉ metrics) :
    assocFind? c (buildTotalItem dims metrics tm key) =
      assocFind? c (dims.enum.foldl (fun acc p => assocSet p.2 (dimPart key p.1) acc) []) := by
  simp only [buildTotalItem]
  rw [assocFind?_foldl_const metrics (totalValue tm key) _ c, if_neg hc]

/-- The dimension pass of a total record: with distinct dimension names,
the field for the dimension at position `i` is `key.split('-')[i]`. -/
theorem dimsFold_find (key : List Char) (dims : List String) (hnd : dims.Nodup)
    (i : Nat) (d : String) (hid : dims.get? i = some d) (r : Row) :
    assocFind? d (dims.enum.foldl (fun acc p => assocSet p.2 (dimPart key p.1) acc) r) =
      some (dimPart key i) := by
  exact assocFind?_foldl_write Prod.snd (fun p => dimPart key p.1) dims.enum r d
    (i, d) (by rw [List.enum_map_snd]; exact hnd)
    (by rw [List.mk_mem_enum_iff_getElem?, ← List.get?_eq_getElem?]; exact hid) rfl

/-- The dimension pass writes only string fragments for keys built by a
join of at least `dims.length` values (duplicate dimension names
allowed). -/
theorem dimsFold_find_isStr (key : List Char) (dims : List String) (d : String)
    (hd : d ∈ dims) (r : Row) (hlen : dims.length ≤ (jsSplit '-' key).length) :
    ∃ s, assocFind? d
        (dims.enum.foldl (fun acc p => assocSet p.2 (dimPart key p.1) acc) r) =
      some (JSVal.vstr s) := by
  have hc : ∃ x ∈ dims.enum, x.2 = d := by
    obtain ⟨i, hi⟩ := List.mem_iff_getElem?.mp hd
    exact ⟨(i, d), by rw [List.mk_mem_enum_iff_getElem?]; exact hi, rfl⟩
  have hP : ∀ x ∈ dims.enum, x.2 = d → ∃ s, dimPart key x.1 = JSVal.vstr s := by
    intro x hx _
    have hlt : x.1 < dims.length := by
      have := List.mem_enum_iff_getElem?.mp hx
      exact (List.getElem?_eq_some.mp this).1
    have hlt' : x.1 < (jsSplit '-' key).length := lt_of_lt_of_le hlt hlen
    obtain ⟨part, hpart⟩ :
        ∃ p, (jsSplit '-' key).get? x.1 = some p :=
      ⟨(jsSplit '-' key).get ⟨x.1, hlt'⟩, by
        rw [List.get?_eq_getElem?]; exact List.getElem?_eq_getElem hlt'⟩
    exact ⟨part, by rw [List.get?_eq_getElem?] at hpart; simp [dimPart, hpart]⟩
  obtain ⟨v, hv, s, hs⟩ := assocFind?_foldl_pred Prod.snd (fun p => dimPart key p.1)
    (fun v => ∃ s, v = JSVal.vstr s) dims.enum r d hc hP
  exact ⟨s, by rw [hv, hs]⟩

/-! ### Transform-pass lemmas -/

theorem applyFormattersPass_find (F : Formatter → JSVal → JSVal)
    (fmts : List (String × Formatter)) (item : Row) (c : String) (f : Formatter)
    (hnd : (fmts.map Prod.fst).Nodup) (hcf : (c, f) ∈ fmts) :
    assocFind? c (applyFormattersPass F fmts item) =
      some (F f (.vdate (jsIndex item c))) :=
  assocFind?_foldl_write Prod.fst
    (fun cf => F cf.2 (JSVal.vdate (jsIndex item cf.1))) fmts [] c (c, f) hnd hcf rfl

theorem applyFormattersPass_not_mem (F : Formatter → JSVal → JSVal)
    (fmts : List (String × Formatter)) (item : Row) (c : String)
    (hc : c ∉ fmts.map Prod.fst) :
    assocFind? c (applyFormattersPass F fmts item) = none := by
  have h := assocFind?_foldl_preserve Prod.fst
    (fun cf => F cf.2 (JSVal.vdate (jsIndex item cf.1))) fmts ([] : Row) c
    (fun x hx he => hc (he ▸ List.mem_map_of_mem Prod.fst hx))
  exact h.trans rfl

theorem copyFold_find_preserved (temporal : List String) (item : Row)
    (l : List String) (r : Row) (c : String) (hc : c ∈ temporal) :
    assocFind? c
        (l.foldl
          (fun acc colname =>
            if temporal.contains colname then acc
            else assocSet colname (jsIndex item colname) acc) r) =
      assocFind? c r := by
  induction l generalizing r with
  | nil => rfl
  | cons k t ih =>
    simp only [List.foldl_cons]
    rw [ih]
    by_cases hk : temporal.contains k = true
    · rw [if_pos hk]
    · rw [if_neg hk]
      refine assocFind?_assocSet_ne _ _ _ _ (fun he => hk ?_)
      subst he
      exact List.elem_eq_true_of_mem hc

theorem copyFold_find_not_mem (temporal : List String) (item : Row)
    (l : List String) (r : Row) (c : String) (hc : c ∉ l) :
    assocFind? c
        (l.foldl
          (fun acc colname =>
            if temporal.contains colname then acc
            else assocSet colname (jsIndex item colname) acc) r) =
      assocFind? c r := by
  induction l generalizing r with
  | nil => rfl
  | cons k t ih =>
    simp only [List.mem_cons, not_or] at hc
    simp only [List.foldl_cons]
    rw [ih _ hc.2]
    by_cases hk : temporal.contains k = true
    · rw [if_pos hk]
    · rw [if_neg hk]
      exact assocFind?_assocSet_ne _ _ _ _ hc.1

theorem copyFold_find_write (temporal : List String) (item : Row)
    (l : List String) (r : Row) (c : String) (htemp : c ∉ temporal)
    (hcl : c ∈ l) :
    assocFind? c
        (l.foldl
          (fun acc colname =>
            if temporal.contains colname then acc
            else assocSet colname (jsIndex item colname) acc) r) =
      some (jsIndex item c) := by
  induction l generalizing r with
  | nil => cases hcl
  | cons k t ih =>
    simp only [List.foldl_cons]
    by_cases hct : c ∈ t
    · exact ih _ hct
    · have hck : c = k := by
        rcases List.mem_cons.mp hcl with h | h
        · exact h
        · exact absurd h hct
      subst hck
      rw [copyFold_find_not_mem temporal item t _ c hct]
      rw [if_neg (fun he => htemp (List.mem_of_elem_eq_true he))]
      exact assocFind?_assocSet_self c (jsIndex item c) r

/-- A temporal column of a transformed row holds its formatter applied
to `new Date(raw value)`. -/
theorem transformItem_temporal (F : Formatter → JSVal → JSVal)
    (fmts : List (String × Formatter)) (item : Row) (c : String) (f : Formatter)
    (hnd : (fmts.map Prod.fst).Nodup) (hcf : (c, f) ∈ fmts) :
    jsIndex (transformItem F fmts item) c = F f (.vdate (jsIndex item c)) := by
  have h1 : assocFind? c (transformItem F fmts item) =
      some (F f (.vdate (jsIndex item c))) := by
    simp only [transformItem, copyOthersPass]
    rw [copyFold_find_preserved (fmts.map Prod.fst) item _ _ c
      (List.mem_map_of_mem Prod.fst hcf)]
    exact applyFormattersPass_find F fmts item c f hnd hcf
  show (assocFind? c (transformItem F fmts item)).getD .vundefined = _
  rw [h1]
  rfl

/-- A non-temporal column of a transformed row is the item's value,
unchanged (also for columns absent from the item: both sides are
`undefined`). -/
theorem transformItem_other (F : Formatter → JSVal → JSVal)
    (fmts : List (String × Formatter)) (item : Row) (c : String)
    (hc : c ∉ fmts.map Prod.fst) :
    jsIndex (transformItem F fmts item) c = jsIndex item c := by
  by_cases hcl : c ∈ item.map Prod.fst
  · have h1 : assocFind? c (transformItem F fmts item) = some (jsIndex item c) := by
      simp only [transformItem, copyOthersPass]
      exact copyFold_find_write (fmts.map Prod.fst) item _ _ c hc hcl
    show (assocFind? c (transformItem F fmts item)).getD .vundefined = jsIndex item c
    rw [h1]
    rfl
  · have h1 : assocFind? c (transformItem F fmts item) = none := by
      simp only [transformItem, copyOthersPass]
      rw [copyFold_find_not_mem (fmts.map Prod.fst) item _ _ c hcl]
      exact applyFormattersPass_not_mem F fmts item c hc
    have h2 : assocFind? c item = none := assocFind?_eq_none_of_not_mem c item hcl
    show (assocFind? c (transformItem F fmts item)).getD .vundefined =
      (assocFind? c item).getD .vundefined
    rw [h1, h2]

/-! ### Grand-total lemmas -/

theorem metricContrib_assocSet_ne (x m : String) (v : JSVal) (sum : Row)
    (h : x ≠ m) : metricContrib (assocSet x v sum) m = metricContrib sum m := by
  simp only [metricContrib, jsIndex]
  rw [assocFind?_assocSet_ne x m v sum (Ne.symm h)]

theorem addTotalsRecord_preserve (metrics : List String) (sum item : Row)
    (c : String) (hc : c ∉ metrics) :
    assocFind? c (addTotalsRecord metrics sum item) = assocFind? c sum := by
  induction metrics generalizing sum with
  | nil => rfl
  | cons x t ih =>
    simp only [List.mem_cons, not_or] at hc
    simp only [addTotalsRecord, List.foldl_cons]
    have := ih (assocSet x (JSVal.vnum (metricContrib sum x + metricContrib item x)) sum)
      hc.2
    simp only [addTotalsRecord] at this
    rw [this]
    exact assocFind?_assocSet_ne _ _ _ _ hc.1

/-- The grand-total reduce step: with distinct metric names, the field
for metric `m` becomes the running value plus the record's value. -/
theorem addTotalsRecord_find (metrics : List String) (hnd : metrics.Nodup)
    (m : String) (hm : m ∈ metrics) (sum item : Row) :
    assocFind? m (addTotalsRecord metrics sum item) =
      some (.vnum (metricContrib sum m + metricContrib item m)) := by
  induction metrics generalizing sum with
  | nil => cases hm
  | cons x t ih =>
    simp only [List.nodup_cons] at hnd
    simp only [addTotalsRecord, List.foldl_cons]
    rcases List.mem_cons.mp hm with rfl | hmt
    · have hpres := addTotalsRecord_preserve t
        (assocSet m (JSVal.vnum (metricContrib sum m + metricContrib item m)) sum)
        item m hnd.1
      simp only [addTotalsRecord] at hpres
      rw [hpres]
      exact assocFind?_assocSet_self m _ sum
    · have hxm : x ≠ m := fun he => hnd.1 (he ▸ hmt)
      have := ih hnd.2 hmt
        (assocSet x (JSVal.vnum (metricContrib sum x + metricContrib item x)) sum)
      simp only [addTotalsRecord] at this
      rw [this, metricContrib_assocSet_ne x m _ sum hxm]

theorem addTotalsRecord_contrib (metrics : List String) (hnd : metrics.Nodup)
    (m : String) (hm : m ∈ metrics) (sum item : Row) :
    metricContrib (addTotalsRecord metrics sum item) m =
      metricContrib sum m + metricContrib item m := by
  simp only [metricContrib, jsIndex]
  rw [addTotalsRecord_find metrics hnd m hm sum item]
  rfl

/-- Keys of the grand-total record come from the starting record or the
metric list. -/
theorem addTotalsRecord_keys (metrics : List String) (sum item : Row)
    (c : String) (hc : c ∈ (addTotalsRecord metrics sum item).map Prod.fst) :
    c ∈ sum.map Prod.fst ∨ c ∈ metrics := by
  induction metrics generalizing sum with
  | nil => exact Or.inl hc
  | cons x t ih =>
    simp only [addTotalsRecord, List.foldl_cons] at hc
    have := ih (assocSet x (JSVal.vnum (metricContrib sum x + metricContrib item x)) sum)
      (by simpa [addTotalsRecord] using hc)
    rcases this with hmem | hmem
    · rcases (mem_keys_assocSet x c _ sum).mp hmem with hs | hrfl
      · exact Or.inl hs
      · exact Or.inr (by rw [hrfl]; exact List.mem_cons_self x t)
    · exact Or.inr (List.mem_cons_of_mem x hmem)

/-- Folding the grand-total reduce over a nonempty record list yields,
for each metric, the numeric sum of that metric over the records, on top
of the starting record's value. -/
theorem grandFold_find (metrics : List String) (hnd : metrics.Nodup)
    (m : String) (hm : m ∈ metrics) (recs : List Row) (init : Row)
    (hne : recs ≠ []) :
    assocFind? m (recs.foldl (addTotalsRecord metrics) init) =
      some (.vnum (metricContrib init m +
        (recs.map fun rec => metricContrib rec m).sum)) := by
  induction recs generalizing init with
  | nil => exact absurd rfl hne
  | cons r t ih =>
    simp only [List.foldl_cons, List.map_cons, List.sum_cons]
    cases t with
    | nil =>
      simp only [List.foldl_nil, List.map_nil, List.sum_nil]
      rw [addTotalsRecord_find metrics hnd m hm init r]
      congr 2
      omega
    | cons r' t' =>
      rw [ih (addTotalsRecord metrics init r) (by simp)]
      rw [addTotalsRecord_contrib metrics hnd m hm init r]
      congr 2
      omega

theorem grandFold_keys (metrics : List String) (recs : List Row) (init : Row)
    (c : String) (hc : c ∈ (recs.foldl (addTotalsRecord metrics) init).map Prod.fst) :
    c ∈ init.map Prod.fst ∨ c ∈ metrics := by
  induction recs generalizing init with
  | nil => exact Or.inl hc
  | cons r t ih =>
    simp only [List.foldl_cons] at hc
    rcases ih (addTotalsRecord metrics init r) hc with hmem | hmem
    · exact addTotalsRecord_keys metrics init r c hmem
    · exact Or.inr hmem

/-- Reading every key of a key-nodup association list gives back its
values. -/
theorem map_keys_find_getD {K V : Type} [DecidableEq K] (m : List (K × V))
    (d : V) (h : (m.map Prod.fst).Nodup) :
    (m.map Prod.fst).map (fun k => (assocFind? k m).getD d) = m.map Prod.snd := by
  induction m with
  | nil => rfl
  | cons p rest ih =>
    obtain ⟨k, v⟩ := p
    simp only [List.map_cons, List.nodup_cons] at h ⊢
    have hhead : (assocFind? k ((k, v) :: rest)).getD d = v := by
      simp [assocFind?]
    have hcongr :
        (rest.map Prod.fst).map (fun k' => (assocFind? k' ((k, v) :: rest)).getD d) =
          (rest.map Prod.fst).map (fun k' => (assocFind? k' rest).getD d) := by
      apply List.map_congr_left
      intro k' hk'
      have hkk : k ≠ k' := fun he => h.1 (he ▸ hk')
      simp only [assocFind?, if_neg hkk]
    rw [hhead, hcongr, ih h.2]

/-! ### Emitted-record lemmas -/

theorem totalsMap_eq_foldl (dims metrics : List String) (data : List Row) :
    totalsMap dims metrics data = data.foldl (bumpTotals dims metrics) [] := rfl

theorem totalsMap_find_getD_nil (dims metrics : List String) (data : List Row)
    (key : List Char) :
    (assocFind? key (totalsMap dims metrics data)).getD 0 =
      groupMetricsSum dims metrics data key := by
  have h := totalsMap_find_getD dims metrics data [] key
  rw [totalsMap_eq_foldl]
  simpa [assocFind?] using h

theorem totalsMap_mem_keys_nil (dims metrics : List String) (data : List Row)
    (key : List Char) :
    key ∈ (totalsMap dims metrics data).map Prod.fst ↔
      ∃ item ∈ data, groupKey dims item = key := by
  rw [totalsMap_eq_foldl]
  simpa using totalsMap_mem_keys dims metrics data [] key

theorem totalValue_of_mem (dims metrics : List String) (data : List Row)
    (key : List Char)
    (hkey : key ∈ (totalsMap dims metrics data).map Prod.fst) :
    totalValue (totalsMap dims metrics data) key =
      .vnum (groupMetricsSum dims metrics data key) := by
  have hsome := (assocFind?_isSome_iff key (totalsMap dims metrics data)).mpr hkey
  have hval := totalsMap_find_getD_nil dims metrics data key
  cases hf : assocFind? key (totalsMap dims metrics data) with
  | none => rw [hf] at hsome; simp at hsome
  | some n =>
    rw [hf] at hval
    simp only [Option.getD_some] at hval
    simp only [totalValue, hf, hval]

/-- The metric field of an emitted total record for group `key` holds the
group's combined metric sum. -/
theorem totalsData_metric_value (dims metrics : List String) (data : List Row)
    (key : List Char)
    (hkey : key ∈ (totalsMap dims metrics data).map Prod.fst)
    (m : String) (hm : m ∈ metrics) :
    jsIndex (buildTotalItem dims metrics (totalsMap dims metrics data) key) m =
      .vnum (groupMetricsSum dims metrics data key) := by
  rw [buildTotalItem_metric dims metrics _ key m hm,
    totalValue_of_mem dims metrics data key hkey]

theorem metricContrib_buildTotalItem (dims metrics : List String)
    (tm : TotalsMap) (key : List Char) (m : String) (hm : m ∈ metrics) :
    metricContrib (buildTotalItem dims metrics tm key) m =
      (assocFind? key tm).getD 0 := by
  simp only [metricContrib]
  rw [buildTotalItem_metric dims metrics tm key m hm]
  cases hf : assocFind? key tm <;> simp [totalValue, hf]

/-- Summing one metric over all emitted total records gives the total
combined metric sum over all rows. -/
theorem totalsData_contrib_sum (dims metrics : List String) (data : List Row)
    (m : String) (hm : m ∈ metrics) :
    ((totalsData dims metrics (totalsMap dims metrics data)).map
        fun rec => metricContrib rec m).sum =
      (data.map (metricsSum metrics)).sum := by
  have hnd : ((totalsMap dims metrics data).map Prod.fst).Nodup := by
    rw [totalsMap_eq_foldl]
    exact totalsMap_keys_nodup dims metrics data [] (by simp)
  simp only [totalsData]
  rw [List.map_map]
  have hcong :
      ((totalsMap dims metrics data).map Prod.fst).map
          ((fun rec => metricContrib rec m) ∘
            buildTotalItem dims metrics (totalsMap dims metrics data)) =
        ((totalsMap dims metrics data).map Prod.fst).map
          (fun k => (assocFind? k (totalsMap dims metrics data)).getD 0) := by
    apply List.map_congr_left
    intro k _
    exact metricContrib_buildTotalItem dims metrics _ k m hm
  rw [hcong, map_keys_find_getD _ 0 hnd]
  have := valuesSum_totalsMap dims metrics data []
  simp only [valuesSum, List.map_nil, List.sum_nil, zero_add] at this
  rw [totalsMap_eq_foldl]
  exact this

/-! ### transformProps projections -/

theorem transformProps_data (F : Formatter → JSVal → JSVal) (inp : ChartInput) :
    (transformProps F inp).data =
      inp.data.map (transformItem F
        (dateFormatters inp.colnames inp.coltypes inp.dateFormat inp.granularity
          inp.data)) := rfl

theorem transformProps_rowTotalsData (F : Formatter → JSVal → JSVal)
    (inp : ChartInput) :
    (transformProps F inp).rowTotalsData =
      totalsData inp.groupbyRows (inp.metrics.map labelOf)
        (totalsMap inp.groupbyRows (inp.metrics.map labelOf)
          (transformProps F inp).data) := rfl

theorem transformProps_colTotalsData (F : Formatter → JSVal → JSVal)
    (inp : ChartInput) :
    (transformProps F inp).colTotalsData =
      totalsData inp.groupbyColumns (inp.metrics.map labelOf)
        (totalsMap inp.groupbyColumns (inp.metrics.map labelOf)
          (transformProps F inp).data) := rfl

theorem transformProps_sumOfRowTotals (F : Formatter → JSVal → JSVal)
    (inp : ChartInput) :
    (transformProps F inp).sumOfRowTotals =
      sumOfRowTotals (inp.metrics.map labelOf)
        (transformProps F inp).rowTotalsData := rfl

/-- The keys of an option-guarded fold stay duplicate-free. -/
theorem ofoldl_keys_nodup {K V : Type} [DecidableEq K] (w : K → Option V)
    (l : List K) (r : List (K × V)) (h : (r.map Prod.fst).Nodup) :
    ((l.foldl (oStep w) r).map Prod.fst).Nodup := by
  induction l generalizing r with
  | nil => exact h
  | cons k t ih =>
    simp only [List.foldl_cons]
    apply ih
    simp only [oStep]
    cases w k with
    | none => exact h
    | some v => exact assocSet_keys_nodup k v r h

/-- The key list of `dateFormatters` has no duplicates. -/
theorem dateFormatters_keys_nodup (colnames : List String)
    (coltypes : List GenericDataType) (dateFormat granularity : Option String)
    (data : List Row) :
    ((dateFormatters colnames coltypes dateFormat granularity data).map
      Prod.fst).Nodup :=
  ofoldl_keys_nodup (resolveFormatter dateFormat granularity data) _ [] (by simp)

theorem zip_map_fst_sublist {α β : Type} (l₁ : List α) (l₂ : List β) :
    ((l₁.zip l₂).map Prod.fst).Sublist l₁ := by
  induction l₁ generalizing l₂ with
  | nil => simp
  | cons a t ih =>
    cases l₂ with
    | nil => simp
    | cons b t₂ =>
      simp only [List.zip_cons_cons, List.map_cons]
      exact (ih t₂).cons₂ a

/-- A nonempty data set yields a nonempty totals map. -/
theorem totalsMap_keys_ne_nil (dims metrics : List String) (data : List Row)
    (hne : data ≠ []) : (totalsMap dims metrics data).map Prod.fst ≠ [] := by
  cases data with
  | nil => exact absurd rfl hne
  | cons item t =>
    intro hmap
    have : groupKey dims item ∈ (totalsMap dims metrics (item :: t)).map Prod.fst :=
      (totalsMap_mem_keys_nil dims metrics (item :: t) _).mpr
        ⟨item, List.mem_cons_self item t, rfl⟩
    rw [hmap] at this
    cases this

/-! ### Concrete inputs for counterexamples and witnesses -/

/-- Identity interpretation of formatter application; adequate for
inputs with no temporal columns, where no formatter is ever applied. -/
def idF : Formatter → JSVal → JSVal := fun _ v => v

/-- One row, one row-dimension, two metrics: `r = "x"`, `m1 = 1`,
`m2 = 2`. -/
def twoMetricInput : ChartInput :=
  { groupbyRows := ["r"]
    groupbyColumns := ["c"]
    metrics := [.inline "m1", .inline "m2"]
    dateFormat := none
    transposePivot := false
    granularity := none
    colnames := ["r", "c", "m1", "m2"]
    coltypes := [.string, .string, .numeric, .numeric]
    data := [[("r", .vstr "x".data), ("c", .vstr "y".data),
              ("m1", .vnum 1), ("m2", .vnum 2)]] }

/-- One row with the transpose flag set: `a = "x"`, `b = "y"`, `m = 1`,
rows configured as `["a"]` and columns as `["b"]`. -/
def transposedInput : ChartInput :=
  { groupbyRows := ["a"]
    groupbyColumns := ["b"]
    metrics := [.inline "m"]
    dateFormat := none
    transposePivot := true
    granularity := none
    colnames := ["a", "b", "m"]
    coltypes := [.string, .string, .numeric]
    data := [[("a", .vstr "x".data), ("b", .vstr "y".data), ("m", .vnum 1)]] }

/-- One row whose dimension values are `null`. -/
def nullDimInput : ChartInput :=
  { groupbyRows := ["r"]
    groupbyColumns := ["c"]
    metrics := [.inline "m"]
    dateFormat := none
    transposePivot := false
    granularity := none
    colnames := ["r", "c", "m"]
    coltypes := [.string, .string, .numeric]
    data := [[("r", .vnull), ("c", .vnull), ("m", .vnum 5)]] }

/-- Modelled from the spec's words, for comparison with the code (§8:
"the row-total metric value for g equals the sum of m over exactly the
rows whose row-dimension values join to g"): the sum of the single
metric `m` over the member rows of group `k`, missing/falsy values
contributing 0. -/
def specPerMetricGroupSum (dims : List String) (m : String) (data : List Row)
    (k : List Char) : Int :=
  ((data.filter fun item => groupKey dims item = k).map
    fun item => metricContrib item m).sum

/-! ### Claim theorems -/

/-- C7: for every input, the emitted total set `totalData` is exactly the
row-total records, then the column-total records, then the single
grand-total record, in that order. -/
theorem c7_totalData_concatenation (F : Formatter → JSVal → JSVal)
    (inp : ChartInput) :
    (transformProps F inp).totalData =
      (transformProps F inp).rowTotalsData ++
        (transformProps F inp).colTotalsData ++
        [(transformProps F inp).sumOfRowTotals] := rfl

/-- C2 counterexample: with the transpose flag set, the row-total
aggregation still groups by the configured `groupbyRows` (`["a"]`), not
by the swapped dimension set (`["b"]`), contradicting the claim that the
aggregation keys use the swapped sets. -/
theorem c2_counterexample :
    (transformProps idF transposedInput).rowTotalsData ≠
      totalsData transposedInput.groupbyColumns ["m"]
        (totalsMap transposedInput.groupbyColumns ["m"]
          (transformProps idF transposedInput).data) := by decide

/-- C2 (amended): the transpose flag swaps only the axis layout
(`fields.rows`/`fields.columns` get the other dimension list); the
row-total and column-total aggregations keep using the configured
`groupbyRows`/`groupbyColumns` regardless of the flag, and the per-row
values are unchanged. -/
theorem c2_transpose_swaps_axis_layout_only (F : Formatter → JSVal → JSVal)
    (inp : ChartInput) :
    (transformProps F { inp with transposePivot := true }).fieldsRows =
        inp.groupbyColumns ∧
    (transformProps F { inp with transposePivot := true }).fieldsColumns =
        inp.groupbyRows ∧
    (transformProps F { inp with transposePivot := false }).fieldsRows =
        inp.groupbyRows ∧
    (transformProps F { inp with transposePivot := false }).fieldsColumns =
        inp.groupbyColumns ∧
    (transformProps F { inp with transposePivot := true }).data =
      (transformProps F { inp with transposePivot := false }).data ∧
    (transformProps F { inp with transposePivot := true }).rowTotalsData =
      (transformProps F { inp with transposePivot := false }).rowTotalsData ∧
    (transformProps F { inp with transposePivot := true }).colTotalsData =
      (transformProps F { inp with transposePivot := false }).colTotalsData :=
  ⟨rfl, rfl, rfl, rfl, rfl, rfl, rfl⟩

/-- C9: in every emitted row-total or column-total record, all configured
metric fields carry one and the same value (the group's single
accumulated sum). -/
theorem c9_metric_fields_equal (F : Formatter → JSVal → JSVal)
    (inp : ChartInput) (rec : Row)
    (hrec : rec ∈ (transformProps F inp).rowTotalsData ∨
      rec ∈ (transformProps F inp).colTotalsData)
    (m1 m2 : String) (h1 : m1 ∈ inp.metrics.map labelOf)
    (h2 : m2 ∈ inp.metrics.map labelOf) :
    jsIndex rec m1 = jsIndex rec m2 := by
  rcases hrec with hrec | hrec
  · rw [transformProps_rowTotalsData] at hrec
    simp only [totalsData] at hrec
    obtain ⟨k, hk, rfl⟩ := List.mem_map.mp hrec
    rw [buildTotalItem_metric _ _ _ k m1 h1, buildTotalItem_metric _ _ _ k m2 h2]
  · rw [transformProps_colTotalsData] at hrec
    simp only [totalsData] at hrec
    obtain ⟨k, hk, rfl⟩ := List.mem_map.mp hrec
    rw [buildTotalItem_metric _ _ _ k m1 h1, buildTotalItem_metric _ _ _ k m2 h2]

/-- C9 witness: in the two-metric example the row-total record carries
the same value at `m1` and `m2`. -/
theorem c9_witness :
    jsIndex ((transformProps idF twoMetricInput).rowTotalsData.headI) "m1" =
      jsIndex ((transformProps idF twoMetricInput).rowTotalsData.headI) "m2" :=
  c9_metric_fields_equal idF twoMetricInput
    ((transformProps idF twoMetricInput).rowTotalsData.headI)
    (Or.inl (by decide)) "m1" "m2" (by decide) (by decide)

/-- C8: an error raised while constructing or rendering the widget is
caught at the render-adapter boundary and logged once; no exception
propagates, no error UI is ever present in the container, and on failure
the container stays blank. -/
theorem c8_render_failure_handling (widget : Except JsError Unit)
    (container : List DomChild) :
    (fetchDataAndRenderSheet widget container).propagated = none ∧
    (∀ msg, DomChild.errorDisplay msg ∉
      (fetchDataAndRenderSheet widget container).container) ∧
    (∀ e, widget = .error e →
      (fetchDataAndRenderSheet widget container).logged =
        ["Error fetching data or rendering TableSheet: " ++ e] ∧
      (fetchDataAndRenderSheet widget container).container = []) := by
  cases widget with
  | ok u =>
    refine ⟨rfl, ?_, ?_⟩
    · intro msg hmem
      simp [fetchDataAndRenderSheet, renderSheetBody] at hmem
    · intro e he
      cases he
  | error e' =>
    refine ⟨rfl, ?_, ?_⟩
    · intro msg hmem
      simp [fetchDataAndRenderSheet, renderSheetBody] at hmem
    · intro e he
      cases he
      exact ⟨rfl, rfl⟩

/-- C8 witness: a concrete failing render is logged with the fixed
prefix and leaves the container blank. -/
theorem c8_witness :
    (fetchDataAndRenderSheet (Except.error "boom") [DomChild.staleContent 0]).logged =
      ["Error fetching data or rendering TableSheet: " ++ "boom"] ∧
    (fetchDataAndRenderSheet (Except.error "boom") [DomChild.staleContent 0]).container =
      [] :=
  (c8_render_failure_handling (Except.error "boom") [DomChild.staleContent 0]).2.2
    "boom" rfl

/-- C1 counterexample: with two configured metrics (`m1 = 1`, `m2 = 2`
on one row), the row-total record's `m1` field holds 3 — the combined
sum of both metrics — not the per-metric sum 1 the claim requires. -/
theorem c1_counterexample :
    jsIndex ((transformProps idF twoMetricInput).rowTotalsData.headI) "m1" ≠
      .vnum (specPerMetricGroupSum twoMetricInput.groupbyRows "m1"
        twoMetricInput.data
        (groupKey twoMetricInput.groupbyRows twoMetricInput.data.headI)) := by
  decide

/-- C1 (amended): every metric field of the row-total record for group
`k` holds the sum, over exactly the reshaped rows whose row-dimension
values join to `k`, of the combined sum of all configured metrics
(missing/falsy values contributing 0); the analogous statement holds for
column totals; and the emitted record sets are exactly one record per
distinct group key of the reshaped rows. -/
theorem c1_group_totals (F : Formatter → JSVal → JSVal) (inp : ChartInput)
    (k : List Char) (m : String) (hm : m ∈ inp.metrics.map labelOf) :
    (k ∈ (totalsMap inp.groupbyRows (inp.metrics.map labelOf)
        (transformProps F inp).data).map Prod.fst →
      jsIndex (buildTotalItem inp.groupbyRows (inp.metrics.map labelOf)
          (totalsMap inp.groupbyRows (inp.metrics.map labelOf)
            (transformProps F inp).data) k) m =
        .vnum (groupMetricsSum inp.groupbyRows (inp.metrics.map labelOf)
          (transformProps F inp).data k)) ∧
    (k ∈ (totalsMap inp.groupbyColumns (inp.metrics.map labelOf)
        (transformProps F inp).data).map Prod.fst →
      jsIndex (buildTotalItem inp.groupbyColumns (inp.metrics.map labelOf)
          (totalsMap inp.groupbyColumns (inp.metrics.map labelOf)
            (transformProps F inp).data) k) m =
        .vnum (groupMetricsSum inp.groupbyColumns (inp.metrics.map labelOf)
          (transformProps F inp).data k)) ∧
    (transformProps F inp).rowTotalsData =
      ((totalsMap inp.groupbyRows (inp.metrics.map labelOf)
        (transformProps F inp).data).map Prod.fst).map
        (buildTotalItem inp.groupbyRows (inp.metrics.map labelOf)
          (totalsMap inp.groupbyRows (inp.metrics.map labelOf)
            (transformProps F inp).data)) ∧
    (transformProps F inp).colTotalsData =
      ((totalsMap inp.groupbyColumns (inp.metrics.map labelOf)
        (transformProps F inp).data).map Prod.fst).map
        (buildTotalItem inp.groupbyColumns (inp.metrics.map labelOf)
          (totalsMap inp.groupbyColumns (inp.metrics.map labelOf)
            (transformProps F inp).data)) :=
  ⟨fun hk => totalsData_metric_value _ _ _ k hk m hm,
    fun hk => totalsData_metric_value _ _ _ k hk m hm, rfl, rfl⟩

/-- C1 witness: in the two-metric example the row-total record for the
group with key `"x"` holds the combined sum 3 at `m1`. -/
theorem c1_witness :
    jsIndex (buildTotalItem twoMetricInput.groupbyRows
        (twoMetricInput.metrics.map labelOf)
        (totalsMap twoMetricInput.groupbyRows
          (twoMetricInput.metrics.map labelOf)
          (transformProps idF twoMetricInput).data) "x".data) "m1" =
      .vnum (groupMetricsSum twoMetricInput.groupbyRows
        (twoMetricInput.metrics.map labelOf)
        (transformProps idF twoMetricInput).data "x".data) :=
  (c1_group_totals idF twoMetricInput "x".data "m1" (by decide)).1 (by decide)

/-- C4 counterexample: with two configured metrics, the grand-total
field for `m1` is 3 (the combined sum of all metrics over all rows), not
the sum 1 of `m1` across the input rows, contradicting the claim's
"equals the sum of that metric across all input rows". -/
theorem c4_counterexample :
    jsIndex (transformProps idF twoMetricInput).sumOfRowTotals "m1" ≠
      .vnum ((twoMetricInput.data.map fun r => metricContrib r "m1").sum) := by
  decide

/-- C4 (amended): each metric field of the grand-total record equals the
sum of that metric across all row-total records; with exact arithmetic
that sum equals the sum, over all reshaped rows, of the combined sum of
all configured metrics (not the per-metric sum); and the grand-total
record carries only metric fields (no dimension fields). -/
theorem c4_grand_total (F : Formatter → JSVal → JSVal) (inp : ChartInput)
    (hnd : (inp.metrics.map labelOf).Nodup) (m : String)
    (hm : m ∈ inp.metrics.map labelOf) :
    (inp.data ≠ [] →
      jsIndex (transformProps F inp).sumOfRowTotals m =
        .vnum (((transformProps F inp).rowTotalsData.map
          fun rec => metricContrib rec m).sum)) ∧
    ((transformProps F inp).rowTotalsData.map
        fun rec => metricContrib rec m).sum =
      ((transformProps F inp).data.map
        (metricsSum (inp.metrics.map labelOf))).sum ∧
    (∀ c ∈ ((transformProps F inp).sumOfRowTotals).map Prod.fst,
      c ∈ inp.metrics.map labelOf) := by
  refine ⟨?_, ?_, ?_⟩
  · intro hne
    have hrecs : (transformProps F inp).rowTotalsData ≠ [] := by
      rw [transformProps_rowTotalsData]
      simp only [totalsData]
      intro hmap
      apply totalsMap_keys_ne_nil inp.groupbyRows (inp.metrics.map labelOf)
        (transformProps F inp).data
      · rw [transformProps_data]
        intro hd
        exact hne (List.map_eq_nil_iff.mp hd)
      · exact List.map_eq_nil_iff.mp hmap
    have hfind := grandFold_find (inp.metrics.map labelOf) hnd m hm
      (transformProps F inp).rowTotalsData [] hrecs
    rw [transformProps_sumOfRowTotals]
    show (assocFind? m (sumOfRowTotals (inp.metrics.map labelOf)
      (transformProps F inp).rowTotalsData)).getD .vundefined = _
    simp only [sumOfRowTotals]
    rw [hfind]
    have hzero : metricContrib [] m = 0 := rfl
    rw [hzero, zero_add]
    rfl
  · rw [transformProps_rowTotalsData]
    exact totalsData_contrib_sum inp.groupbyRows (inp.metrics.map labelOf)
      (transformProps F inp).data m hm
  · intro c hc
    rw [transformProps_sumOfRowTotals] at hc
    simp only [sumOfRowTotals] at hc
    rcases grandFold_keys (inp.metrics.map labelOf)
      (transformProps F inp).rowTotalsData [] c hc with hmem | hmem
    · cases hmem
    · exact hmem

/-- C4 witness: in the two-metric example the grand-total field for `m1`
equals the sum of the `m1` fields of the row-total records. -/
theorem c4_witness :
    jsIndex (transformProps idF twoMetricInput).sumOfRowTotals "m1" =
      .vnum (((transformProps idF twoMetricInput).rowTotalsData.map
        fun rec => metricContrib rec "m1").sum) :=
  (c4_grand_total idF twoMetricInput (by decide) "m1" (by decide)).1 (by decide)

/-- An input with one temporal column and an explicit date format. -/
def temporalInput : ChartInput :=
  { groupbyRows := ["r"]
    groupbyColumns := ["c"]
    metrics := [.inline "m"]
    dateFormat := some "%Y"
    transposePivot := false
    granularity := none
    colnames := ["t", "m"]
    coltypes := [.temporal, .numeric]
    data := [[("t", .vnum 100), ("m", .vnum 1)]] }

/-- C3: for every temporal column, formatter selection follows the
four-branch policy: smart format with known granularity picks the
granularity formatter; smart format, unknown granularity and uniformly
numeric-or-nullish values picks the fixed database-datetime formatter;
smart format otherwise picks identity string conversion; a truthy
explicit format string builds that formatter; otherwise the column is
left unformatted (unbound in `dateFormatters`); in particular an
all-null column with smart format and no granularity resolves to the
database-datetime formatter.  `dateFormatters` binds exactly the
temporal columns whose resolution produced a formatter. -/
theorem c3_temporal_formatter_policy :
    (∀ (g : String) (data : List Row) (col : String),
      resolveFormatter (some smartDateFormatterId) (some g) data col =
        some (.granularityFmt g)) ∧
    (∀ (data : List Row) (col : String), isNumeric col data = true →
      resolveFormatter (some smartDateFormatterId) none data col =
        some (.timeFmt DATABASE_DATETIME)) ∧
    (∀ (data : List Row) (col : String), isNumeric col data = false →
      resolveFormatter (some smartDateFormatterId) none data col =
        some .strFmt) ∧
    (∀ (df : String) (g : Option String) (data : List Row) (col : String),
      df ≠ smartDateFormatterId → df ≠ "" →
      resolveFormatter (some df) g data col = some (.timeFmt df)) ∧
    (∀ (g : Option String) (data : List Row) (col : String),
      resolveFormatter none g data col = none) ∧
    (∀ (g : Option String) (data : List Row) (col : String),
      resolveFormatter (some "") g data col = none) ∧
    (∀ (data : List Row) (col : String),
      (∀ r ∈ data, jsIndex r col = .vnull) →
      resolveFormatter (some smartDateFormatterId) none data col =
        some (.timeFmt DATABASE_DATETIME)) ∧
    (∀ (colnames : List String) (coltypes : List GenericDataType)
      (df g : Option String) (data : List Row) (col : String),
      colnames.Nodup →
      assocFind? col (dateFormatters colnames coltypes df g data) =
        if col ∈ ((colnames.zip coltypes).filter
            fun p => p.2 = GenericDataType.temporal).map Prod.fst
        then resolveFormatter df g data col else none) := by
  refine ⟨?_, ?_, ?_, ?_, ?_, ?_, ?_, ?_⟩
  · intro g data col
    simp [resolveFormatter]
  · intro data col h
    simp [resolveFormatter, h]
  · intro data col h
    simp [resolveFormatter, h]
  · intro df g data col h1 h2
    simp [resolveFormatter, h1, h2]
  · intro g data col
    simp [resolveFormatter]
  · intro g data col
    simp [resolveFormatter, smartDateFormatterId]
  · intro data col h
    have hnum : isNumeric col data = true := by
      simp only [isNumeric, List.all_eq_true]
      intro r hr
      rw [h r hr]
    simp [resolveFormatter, hnum]
  · intro colnames coltypes df g data col hnd
    have hsub : (((colnames.zip coltypes).filter
        fun p => p.2 = GenericDataType.temporal).map Prod.fst).Sublist colnames :=
      ((List.filter_sublist _).map Prod.fst).trans
        (zip_map_fst_sublist colnames coltypes)
    have hnd' := hnd.sublist hsub
    simp only [dateFormatters]
    by_cases hmem : col ∈ ((colnames.zip coltypes).filter
        fun p => p.2 = GenericDataType.temporal).map Prod.fst
    · rw [assocFind?_ofoldl_mem (resolveFormatter df g data) _ [] col hnd' hmem,
        if_pos hmem]
      cases hr : resolveFormatter df g data col with
      | none => rfl
      | some f => rfl
    · rw [assocFind?_ofoldl_not_mem (resolveFormatter df g data) _ [] col hmem,
        if_neg hmem]
      rfl

/-- C3 witness: a temporal column whose values are all null, with smart
format and no known granularity, resolves to the database-datetime
formatter. -/
theorem c3_witness :
    resolveFormatter (some smartDateFormatterId) none [[("t", JSVal.vnull)]] "t" =
      some (.timeFmt DATABASE_DATETIME) :=
  c3_temporal_formatter_policy.2.2.2.2.2.2.1 [[("t", JSVal.vnull)]] "t"
    (fun r hr => by
      rw [List.mem_singleton.mp hr]
      rfl)

/-- C5: the reshaping pass emits exactly one output row per input row,
in input order; in each output row every column bound in
`dateFormatters` holds its formatter applied to a date built from the
raw value, and every other column is copied unchanged. -/
theorem c5_reshaping (F : Formatter → JSVal → JSVal) (inp : ChartInput) :
    (transformProps F inp).data.length = inp.data.length ∧
    (transformProps F inp).data =
      inp.data.map (transformItem F (dateFormatters inp.colnames inp.coltypes
        inp.dateFormat inp.granularity inp.data)) ∧
    (∀ item ∈ inp.data, ∀ (c : String) (f : Formatter),
      (c, f) ∈ dateFormatters inp.colnames inp.coltypes inp.dateFormat
          inp.granularity inp.data →
      jsIndex (transformItem F (dateFormatters inp.colnames inp.coltypes
          inp.dateFormat inp.granularity inp.data) item) c =
        F f (.vdate (jsIndex item c))) ∧
    (∀ item ∈ inp.data, ∀ c : String,
      c ∉ (dateFormatters inp.colnames inp.coltypes inp.dateFormat
          inp.granularity inp.data).map Prod.fst →
      jsIndex (transformItem F (dateFormatters inp.colnames inp.coltypes
          inp.dateFormat inp.granularity inp.data) item) c = jsIndex item c) := by
  refine ⟨?_, rfl, ?_, ?_⟩
  · rw [transformProps_data]
    exact List.length_map inp.data _
  · intro item _ c f hcf
    exact transformItem_temporal F _ item c f
      (dateFormatters_keys_nodup inp.colnames inp.coltypes inp.dateFormat
        inp.granularity inp.data) hcf
  · intro item _ c hc
    exact transformItem_other F _ item c hc

/-- C5 witness: in the temporal example, the temporal column `t` of the
reshaped row is the resolved formatter applied to a date built from the
raw value. -/
theorem c5_witness :
    jsIndex (transformItem idF (dateFormatters temporalInput.colnames
        temporalInput.coltypes temporalInput.dateFormat temporalInput.granularity
        temporalInput.data) temporalInput.data.headI) "t" =
      idF (.timeFmt "%Y") (.vdate (jsIndex temporalInput.data.headI "t")) :=
  (c5_reshaping idF temporalInput).2.2.1 temporalInput.data.headI (by decide)
    "t" (.timeFmt "%Y") (by decide)

/-- C6: total-record dimension fields are rebuilt by splitting the group
key on `'-'`; for groups whose dimension values are separator-free
strings the reconstruction returns exactly the original values, and the
encoding is lossy when a value contains the separator: two distinct
dimension-value assignments share one group key. -/
theorem c6_split_join_reconstruction :
    (∀ (dims metrics : List String) (tm : TotalsMap) (item : Row) (d : String),
      d ∈ dims → dims.Nodup → d ∉ metrics →
      (∀ d' ∈ dims, ∃ s, jsIndex item d' = .vstr s ∧ '-' ∉ s) →
      jsIndex (buildTotalItem dims metrics tm (groupKey dims item)) d =
        jsIndex item d) ∧
    (groupKey ["a", "b"] [("a", .vstr "x-y".data), ("b", .vstr "z".data)] =
        groupKey ["a", "b"] [("a", .vstr "x".data), ("b", .vstr "y-z".data)] ∧
      jsIndex [("a", JSVal.vstr "x-y".data), ("b", JSVal.vstr "z".data)] "a" ≠
        jsIndex [("a", JSVal.vstr "x".data), ("b", JSVal.vstr "y-z".data)] "a") := by
  constructor
  · intro dims metrics tm item d hd hnd hdm hstr
    have hmapne : dims.map (fun d' => joinToStr (jsIndex item d')) ≠ [] := by
      intro h
      rw [List.map_eq_nil_iff] at h
      rw [h] at hd
      cases hd
    have hsepfree :
        ∀ x ∈ dims.map (fun d' => joinToStr (jsIndex item d')), '-' ∉ x := by
      intro x hx
      obtain ⟨d', hd', rfl⟩ := List.mem_map.mp hx
      obtain ⟨s, hs, hsep⟩ := hstr d' hd'
      rw [hs]
      exact hsep
    have hkey : jsSplit '-' (groupKey dims item) =
        dims.map fun d' => joinToStr (jsIndex item d') := by
      simp only [groupKey]
      exact jsSplit_joinParts '-' _ hmapne hsepfree
    obtain ⟨i, hi⟩ : ∃ i, dims.get? i = some d := by
      obtain ⟨i, hi⟩ := List.mem_iff_getElem?.mp hd
      exact ⟨i, by rw [List.get?_eq_getElem?]; exact hi⟩
    have hfound := dimsFold_find (groupKey dims item) dims hnd i d hi []
    show (assocFind? d
        (buildTotalItem dims metrics tm (groupKey dims item))).getD .vundefined =
      jsIndex item d
    rw [buildTotalItem_not_metric dims metrics tm _ d hdm, hfound]
    have hpart : (jsSplit '-' (groupKey dims item)).get? i =
        some (joinToStr (jsIndex item d)) := by
      rw [hkey, List.get?_eq_getElem?, List.getElem?_map]
      rw [List.get?_eq_getElem?] at hi
      rw [hi]
      rfl
    simp only [Option.getD_some, dimPart]
    rw [hpart]
    obtain ⟨s, hs, -⟩ := hstr d hd
    rw [hs]
    rfl
  · exact ⟨by decide, by decide⟩

/-- C6 witness: a one-dimension group with a separator-free string value
round-trips through join and split. -/
theorem c6_witness :
    jsIndex (buildTotalItem ["r"] ["m"] []
        (groupKey ["r"] [("r", JSVal.vstr "x".data)])) "r" =
      jsIndex [("r", JSVal.vstr "x".data)] "r" :=
  c6_split_join_reconstruction.1 ["r"] ["m"] [] [("r", JSVal.vstr "x".data)] "r"
    (by decide) (by decide) (by decide)
    (fun d' hd' => by
      rw [List.mem_singleton.mp hd']
      exact ⟨"x".data, rfl, by decide⟩)

/-- C10: every dimension field of an emitted row-total or column-total
record is a string (a fragment of the split group key), whatever the
original dimension values were; in particular a null dimension value
appears as the empty string in the reconstructed field. -/
theorem c10_dimension_fields_are_strings :
    (∀ (F : Formatter → JSVal → JSVal) (inp : ChartInput) (d : String),
      d ∉ inp.metrics.map labelOf →
      (∀ rec ∈ (transformProps F inp).rowTotalsData, d ∈ inp.groupbyRows →
        ∃ s, jsIndex rec d = .vstr s) ∧
      (∀ rec ∈ (transformProps F inp).colTotalsData, d ∈ inp.groupbyColumns →
        ∃ s, jsIndex rec d = .vstr s)) ∧
    jsIndex ((transformProps idF nullDimInput).rowTotalsData.headI) "r" =
      .vstr "".data := by
  constructor
  · intro F inp d hdm
    constructor
    · intro rec hrec hd
      rw [transformProps_rowTotalsData] at hrec
      simp only [totalsData] at hrec
      obtain ⟨k, hk, rfl⟩ := List.mem_map.mp hrec
      obtain ⟨item, -, hkey⟩ :=
        (totalsMap_mem_keys_nil inp.groupbyRows (inp.metrics.map labelOf)
          (transformProps F inp).data k).mp hk
      have hdimsne : inp.groupbyRows ≠ [] := by
        intro h
        rw [h] at hd
        cases hd
      have hlen : inp.groupbyRows.length ≤ (jsSplit '-' k).length := by
        rw [← hkey]
        simp only [groupKey]
        have := jsSplit_joinParts_length '-'
          (inp.groupbyRows.map fun d' => joinToStr (jsIndex item d'))
          (by simpa using hdimsne)
        simpa using this
      obtain ⟨s, hs⟩ := dimsFold_find_isStr k inp.groupbyRows d hd [] hlen
      refine ⟨s, ?_⟩
      show (assocFind? d (buildTotalItem inp.groupbyRows
        (inp.metrics.map labelOf) _ k)).getD .vundefined = .vstr s
      rw [buildTotalItem_not_metric _ _ _ _ d hdm, hs]
      rfl
    · intro rec hrec hd
      rw [transformProps_colTotalsData] at hrec
      simp only [totalsData] at hrec
      obtain ⟨k, hk, rfl⟩ := List.mem_map.mp hrec
      obtain ⟨item, -, hkey⟩ :=
        (totalsMap_mem_keys_nil inp.groupbyColumns (inp.metrics.map labelOf)
          (transformProps F inp).data k).mp hk
      have hdimsne : inp.groupbyColumns ≠ [] := by
        intro h
        rw [h] at hd
        cases hd
      have hlen : inp.groupbyColumns.length ≤ (jsSplit '-' k).length := by
        rw [← hkey]
        simp only [groupKey]
        have := jsSplit_joinParts_length '-'
          (inp.groupbyColumns.map fun d' => joinToStr (jsIndex item d'))
          (by simpa using hdimsne)
        simpa using this
      obtain ⟨s, hs⟩ := dimsFold_find_isStr k inp.groupbyColumns d hd [] hlen
      refine ⟨s, ?_⟩
      show (assocFind? d (buildTotalItem inp.groupbyColumns
        (inp.metrics.map labelOf) _ k)).getD .vundefined = .vstr s
      rw [buildTotalItem_not_metric _ _ _ _ d hdm, hs]
      rfl
  · decide

/-- C10 witness: the row-total record of the null-dimension example has
a string at its dimension field. -/
theorem c10_witness :
    ∃ s, jsIndex ((transformProps idF nullDimInput).rowTotalsData.headI) "r" =
      .vstr s :=
  (c10_dimension_fields_are_strings.1 idF nullDimInput "r" (by decide)).1
    ((transformProps idF nullDimInput).rowTotalsData.headI) (by decide) (by decide)

end AntvPivot
